import Mathlib

/-!
Shallow embedding of the datarails-open ingestion / reporting / scenario core
(src/app/loader.py, src/app/excel_loader.py, src/app/reporting.py,
src/app/scenario.py), together with theorems checking the specification's
claims against it.  Python floats / SQL REAL values are modelled as exact
rationals; Python dicts as association lists where a later binding for a key
overwrites an earlier one; Python / SQLite string comparison as code-point
order (identical to UTF-8 byte order used by SQLite's BINARY collation).
-/

namespace DROpen

/-- A normalised row tuple as returned by `_normalise_row` (src/app/loader.py):
`(period, department, account, value, currency, metadata)`. -/
structure NRow where
  period : String
  department : String
  account : String
  value : ℚ
  currency : String
  metadata : String
deriving DecidableEq

/-- Canonical fact: one row of the `financial_facts` table (src/app/database.py),
as read back by the reporting / scenario queries. -/
structure Fact where
  source : String
  scenario : String
  period : String
  department : String
  account : String
  value : ℚ
  currency : String
  metadata : String
deriving DecidableEq

/-- The errors the ingestion layer raises (all `ValueError` subclasses in the
Python source; the spec's taxonomy names them SchemaError, ValueParseError,
NotFoundError and ConflictError). -/
inductive LoadError where
  | missingColumn (name : String)
  | valueParse (raw : String)
  | schema (missing : List String)
  | sheetNotFound (name : String)
  | tableNotFound (name : String)
  | conflict (table : String) (sheet : String)
deriving DecidableEq

deriving instance DecidableEq for Except

/-! ### Python string primitives

Modelled structurally over the character list so that concrete inputs
evaluate. -/

/-- The characters Python's `str.strip()` removes. -/
def pyWhitespace (c : Char) : Bool :=
  c == ' ' || c == '\t' || c == '\n' || c == '\r' || c == '\x0b' || c == '\x0c'

/-- Python `str.strip()`: remove leading and trailing whitespace. -/
def pyStrip (s : String) : String :=
  ⟨((s.toList.dropWhile pyWhitespace).reverse.dropWhile pyWhitespace).reverse⟩

/-- ASCII lower-casing of one character. -/
def charLower (c : Char) : Char :=
  if 65 ≤ c.toNat && c.toNat ≤ 90 then Char.ofNat (c.toNat + 32) else c

/-- Python `str.lower()` (the inputs here are ASCII; non-ASCII case mappings
are not modelled). -/
def pyLower (s : String) : String :=
  ⟨s.toList.map charLower⟩

/-- Python `str.replace(",", "")`: remove every comma. -/
def pyRemoveCommas (s : String) : String :=
  ⟨s.toList.filter (fun c => c != ',')⟩

/-! ### String order and sorting

Python's `sorted` on strings and SQLite's `ORDER BY` on TEXT (BINARY
collation) both compare code-point-wise, which we model directly on the
character lists. -/

/-- Strict lexicographic code-point order on character lists. -/
def charListLt : List Char → List Char → Bool
  | _, [] => false
  | [], _ :: _ => true
  | a :: as, b :: bs => decide (a < b) || (a == b && charListLt as bs)

/-- Strict code-point order on strings. -/
def strLt (a b : String) : Bool := charListLt a.toList b.toList

/-- Reflexive code-point order on strings. -/
def strLe (a b : String) : Bool := strLt a b || a == b

/-- A sort satisfying the given total order, modelling Python `sorted` / SQL
`ORDER BY`. -/
def sortBy {α : Type} (le : α → α → Bool) (l : List α) : List α :=
  @List.insertionSort α (fun a b => le a b = true) (fun a b => Bool.decEq (le a b) true) l

/-! ### Delimited-text ingestion (src/app/loader.py) -/

/-- Lookup in a Python dict modelled as an association list built by successive
insertion: a later binding for the same key overwrites an earlier one, so the
lookup scans from the end. -/
def pyLookup (d : List (String × String)) (k : String) : Option String :=
  d.reverse.lookup k

/-- Python `s or default` applied to an optional string: `None` and the empty
string are both falsy. -/
def pyOrElse (v : Option String) (dflt : String) : String :=
  match v with
  | some s => if s = "" then dflt else s
  | none => dflt

/-- Numeric value of a list of decimal digit characters. -/
def digitsVal (ds : List Char) : ℕ :=
  ds.foldl (fun n c => 10 * n + (c.toNat - 48)) 0

/-- Exponent suffix of a decimal literal: an optional sign followed by at least
one digit and nothing else. -/
def pyFloatExp (sign mant : ℚ) (rest : List Char) : Option ℚ :=
  let signed : ℤ × List Char :=
    match rest with
    | '+' :: r => (1, r)
    | '-' :: r => (-1, r)
    | r => (1, r)
  let eds := signed.2.takeWhile Char.isDigit
  let tail := signed.2.dropWhile Char.isDigit
  if eds.isEmpty || !tail.isEmpty then none
  else some (sign * mant * (10 : ℚ) ^ (signed.1 * (digitsVal eds : ℤ)))

/-- Models Python's builtin `float` on decimal string literals (optional sign,
digits with an optional fractional part, optional exponent), with exact
rational semantics.  The special forms `inf` / `nan` and underscore digit
separators are not modelled; the call sites only feed it trimmed,
comma-stripped cell text.  `none` models a `ValueError` from `float`. -/
def pyFloat (s : String) : Option ℚ :=
  let signAndRest : ℚ × List Char :=
    match s.toList with
    | '+' :: rest => (1, rest)
    | '-' :: rest => (-1, rest)
    | rest => (1, rest)
  let sign := signAndRest.1
  let cs1 := signAndRest.2
  let intPart := cs1.takeWhile Char.isDigit
  let cs2 := cs1.dropWhile Char.isDigit
  let fracAndRest : List Char × List Char :=
    match cs2 with
    | '.' :: rest => (rest.takeWhile Char.isDigit, rest.dropWhile Char.isDigit)
    | rest => ([], rest)
  let fracPart := fracAndRest.1
  let cs3 := fracAndRest.2
  if intPart.isEmpty && fracPart.isEmpty then none
  else
    let mant : ℚ := (digitsVal (intPart ++ fracPart) : ℚ) / ((10 : ℚ) ^ fracPart.length)
    match cs3 with
    | [] => some (sign * mant)
    | 'e' :: rest => pyFloatExp sign mant rest
    | 'E' :: rest => pyFloatExp sign mant rest
    | _ => none

/-- Embeds `_normalise_row` (src/app/loader.py lines 22-34): look the four
required keys up (a missing key raises), strip the text dimensions, strip
thousands separators from the value and parse it, and default `currency` /
`metadata`.  The lookups happen in the source's evaluation order. -/
def normaliseRow (row : List (String × String)) : Except LoadError NRow :=
  match pyLookup row "period" with
  | none => .error (.missingColumn "period")
  | some p =>
    match pyLookup row "department" with
    | none => .error (.missingColumn "department")
    | some d =>
      match pyLookup row "account" with
      | none => .error (.missingColumn "account")
      | some a =>
        match pyLookup row "value" with
        | none => .error (.missingColumn "value")
        | some v =>
          let raw := pyStrip (pyRemoveCommas v)
          match pyFloat raw with
          | none => .error (.valueParse raw)
          | some q =>
            .ok ⟨pyStrip p, pyStrip d, pyStrip a, q,
                 pyStrip (pyOrElse (pyLookup row "currency") "USD"),
                 pyStrip (pyOrElse (pyLookup row "metadata") "")⟩

def REQUIRED_COLUMNS : List String := ["period", "department", "account", "value"]

/-- `sorted(set(REQUIRED_COLUMNS) - set(headers))` (src/app/loader.py line 51,
src/app/excel_loader.py line 22): the required columns that are absent from
the headers, in sorted order. -/
def missingColumns (headers : List String) : List String :=
  sortBy strLe (REQUIRED_COLUMNS.filter (fun c => !headers.contains c))

/-- The per-row lowered dict `{k.strip().lower(): v for k, v in raw.items() if k}`
(src/app/loader.py line 57); the DictReader's raw dict is modelled as the zip
of the fieldnames with the record's cells. -/
def lowerRow (fieldnames : List String) (rec : List String) : List (String × String) :=
  ((fieldnames.zip rec).filter (fun kv => kv.1 != "")).map
    (fun kv => (pyLower (pyStrip kv.1), kv.2))

/-- Embeds the in-memory part of `read_dataset` (src/app/loader.py lines 46-58):
the csv.DictReader is modelled by its fieldnames (`none` when the file has no
header row, making `reader.fieldnames or []` empty) and its record rows (the
DictReader has already dropped fully empty lines).  Path-existence and
extension checks are filesystem-level and precede this stage. -/
def read_dataset (fieldnames : Option (List String)) (records : List (List String)) :
    Except LoadError (List NRow) :=
  let headers := (fieldnames.getD []).map (fun h => pyLower (pyStrip h))
  if headers.isEmpty then .ok []
  else
    let missing := missingColumns headers
    if !missing.isEmpty then .error (.schema missing)
    else records.mapM (fun rec => normaliseRow (lowerRow (fieldnames.getD []) rec))

/-! ### Spreadsheet ingestion (src/app/excel_loader.py) -/

/-- `cell in (None, "")`: a worksheet cell that counts as blank. -/
def cellBlank (c : Option String) : Bool :=
  match c with
  | none => true
  | some s => s == ""

/-- `str(cell).strip().lower() if cell is not None else ""` applied to a header
cell; cells are carried as their `str()` image. -/
def headerName (c : Option String) : String :=
  match c with
  | some s => pyLower (pyStrip s)
  | none => ""

/-- The per-row dict `{header: "" if value is None else str(value) for header,
value in zip(headers, row) if header}` (src/app/excel_loader.py lines 30-35). -/
def excelDict (headers : List String) (row : List (Option String)) :
    List (String × String) :=
  ((headers.zip row).filter (fun kv => kv.1 != "")).map (fun kv => (kv.1, kv.2.getD ""))

/-- Embeds `_normalised_rows_from_iterable` (src/app/excel_loader.py lines
16-37): lower and trim the header cells, return no rows when every header is
empty, validate the required columns, then normalise every non-blank data
row. -/
def normalisedRowsFromIterable (header_row : List (Option String))
    (data_rows : List (List (Option String))) : Except LoadError (List NRow) :=
  let headers := header_row.map headerName
  if headers.all (fun h => h == "") then .ok []
  else
    let missing := missingColumns (headers.filter (fun h => h != ""))
    if !missing.isEmpty then .error (.schema missing)
    else
      (data_rows.filter (fun row => !row.all cellBlank)).mapM
        (fun row => normaliseRow (excelDict headers row))

/-- A named table: its name plus the bounds `range_boundaries(table.ref)`
returns (1-based, inclusive). -/
structure XTable where
  name : String
  minCol : ℕ
  minRow : ℕ
  maxCol : ℕ
  maxRow : ℕ
deriving DecidableEq

/-- A worksheet: title, cell grid (as `str()` images; `none` is an empty cell)
and its named tables. -/
structure Sheet where
  title : String
  rows : List (List (Option String))
  tables : List XTable
deriving DecidableEq

/-- A workbook is its ordered list of worksheets. -/
structure Workbook where
  sheets : List Sheet
deriving DecidableEq

def Workbook.sheetnames (wb : Workbook) : List String := wb.sheets.map (fun ws => ws.title)

/-- `{name: ws for ws in workbook.worksheets for name in ws.tables}`: later
entries overwrite earlier ones, so the lookup takes the last binding. -/
def Workbook.tableIndex (wb : Workbook) : List (String × Sheet) :=
  (wb.sheets.map (fun ws => ws.tables.map (fun t => (t.name, ws)))).flatten

def Workbook.tableSheet (wb : Workbook) (n : String) : Option Sheet :=
  wb.tableIndex.reverse.lookup n

/-- Embeds `_rows_from_sheet` (src/app/excel_loader.py lines 40-47): the header
row is the first row with a non-blank cell; a sheet with none contributes no
rows. -/
def rowsFromSheet (rows : List (List (Option String))) : Except LoadError (List NRow) :=
  match rows.dropWhile (fun r => r.all cellBlank) with
  | [] => .ok []
  | header :: rest => normalisedRowsFromIterable header rest

/-- The rectangle `sheet.iter_rows(min_row=…, max_row=…, min_col=…, max_col=…)`
cuts out of the grid (short worksheet rows are truncated rather than padded,
immaterial to the claims below). -/
def rectRows (rows : List (List (Option String))) (t : XTable) :
    List (List (Option String)) :=
  ((rows.drop (t.minRow - 1)).take (t.maxRow - t.minRow + 1)).map
    (fun r => (r.drop (t.minCol - 1)).take (t.maxCol - t.minCol + 1))

/-- Embeds `_rows_from_table` (src/app/excel_loader.py lines 50-63): the first
row of the table's range is the header, the remaining range rows are data.
The caller has already resolved the table onto this sheet, so a missing name
is unreachable (a Python `KeyError`). -/
def rowsFromTable (ws : Sheet) (n : String) : Except LoadError (List NRow) :=
  match ws.tables.find? (fun t => t.name == n) with
  | none => .error (.tableNotFound n)
  | some t =>
    match rectRows ws.rows t with
    | [] => .ok []
    | header :: rest => normalisedRowsFromIterable header rest

/-- Python truthiness of an optional list: `None` and `[]` are both falsy. -/
def pyTruthyList (o : Option (List String)) : Bool :=
  match o with
  | some (_ :: _) => true
  | _ => false

/-- The table loop of `read_workbook` (src/app/excel_loader.py lines 96-104):
for each requested table in request order, fail with the conflict error if a
sheet filter is active and excludes the table's sheet, otherwise extract its
rows; results are concatenated. -/
def processTables (wb : Workbook) (sheetsOpt : Option (List String)) :
    List String → Except LoadError (List NRow)
  | [] => .ok []
  | n :: rest =>
    match wb.tableSheet n with
    | none => .error (.tableNotFound n)
    | some ws =>
      if pyTruthyList sheetsOpt && !((sheetsOpt.getD []).contains ws.title) then
        .error (.conflict n ws.title)
      else do
        let rs ← rowsFromTable ws n
        let more ← processTables wb sheetsOpt rest
        .ok (rs ++ more)

/-- The sheet loop of `read_workbook` (src/app/excel_loader.py lines 106-109);
every requested name was checked to exist, so the default sheet is
unreachable. -/
def processSheets (wb : Workbook) : List String → Except LoadError (List NRow)
  | [] => .ok []
  | n :: rest => do
    let ws := (wb.sheets.find? (fun s => s.title == n)).getD ⟨n, [], []⟩
    let rs ← rowsFromSheet ws.rows
    let more ← processSheets wb rest
    .ok (rs ++ more)

/-- Embeds `read_workbook` (src/app/excel_loader.py lines 66-111) from the
point the workbook is open (path-existence and extension checks are
filesystem-level): resolve and check the requested sheets, check the requested
tables exist, then extract by table (when a table list is given) or by sheet.
Python truthiness: empty `sheets` / `tables` lists behave like `None`. -/
def read_workbook (wb : Workbook) (sheets tables : Option (List String)) :
    Except LoadError (List NRow) :=
  let requested := if pyTruthyList sheets then sheets.getD [] else wb.sheetnames
  match requested.find? (fun n => !wb.sheetnames.contains n) with
  | some n => .error (.sheetNotFound n)
  | none =>
    if pyTruthyList tables then
      match (tables.getD []).find? (fun n => (wb.tableSheet n).isNone) with
      | some n => .error (.tableNotFound n)
      | none => processTables wb sheets (tables.getD [])
    else
      processSheets wb requested

/-! ### Reporting (src/app/reporting.py) -/

/-- Lexicographic order on `(period, department)` group keys. -/
def keyLe (a b : String × String) : Bool :=
  strLt a.1 b.1 || (a.1 == b.1 && strLe a.2 b.2)

/-- Lexicographic order on `(period, department, account)` group keys. -/
def key3Le (a b : String × String × String) : Bool :=
  strLt a.1 b.1 || (a.1 == b.1 && keyLe a.2 b.2)

/-- `SUM(value)` over the facts of one `(period, department)` group. -/
def groupTotal (facts : List Fact) (p d : String) : ℚ :=
  ((facts.filter (fun f => f.period == p && f.department == d)).map Fact.value).sum

/-- `SELECT period, department, SUM(value) … GROUP BY period, department ORDER
BY period, department` over a list of facts: one row per distinct key, in
ascending key order. -/
def summarise (facts : List Fact) : List (String × String × ℚ) :=
  (sortBy keyLe (facts.map (fun f => (f.period, f.department))).dedup).map
    (fun k => (k.1, k.2, groupTotal facts k.1 k.2))

/-- Python truthiness of an optional string: `None` and `""` are both falsy. -/
def pyTruthyStr (o : Option String) : Bool :=
  match o with
  | some s => s != ""
  | none => false

/-- Embeds `summarise_by_department` (src/app/reporting.py lines 8-26).  Python
truthiness: a `""` scenario takes the unfiltered branch. -/
def summarise_by_department (facts : List Fact) (scenario : Option String) :
    List (String × String × ℚ) :=
  if pyTruthyStr scenario then
    summarise (facts.filter (fun f => f.scenario == scenario.getD ""))
  else
    summarise facts

/-- The `(period, department, account)` key of a fact. -/
def vKey (f : Fact) : String × String × String := (f.period, f.department, f.account)

/-- `SUM(CASE WHEN scenario = s THEN value ELSE 0 END)` over a list of facts. -/
def caseSum (facts : List Fact) (s : String) : ℚ :=
  (facts.map (fun f => if f.scenario == s then f.value else 0)).sum

/-- Embeds `variance_report` (src/app/reporting.py lines 29-64): restrict to
the two scenarios, group by `(period, department, account)` in ascending key
order, and emit the two conditional sums and their difference. -/
def variance_report (facts : List Fact) (actual budget : String) :
    List (String × String × String × ℚ × ℚ × ℚ) :=
  let fs := facts.filter (fun f => f.scenario == actual || f.scenario == budget)
  (sortBy key3Le (fs.map vKey).dedup).map
    (fun k =>
      let grp := fs.filter (fun f => vKey f == k)
      (k.1, k.2.1, k.2.2, caseSum grp actual, caseSum grp budget,
       caseSum grp actual - caseSum grp budget))

/-! ### Scenario engine (src/app/scenario.py) -/

/-- `ScenarioAdjustment` (src/app/scenario.py lines 29-42): optional
department / account filters and a percentage change. -/
structure ScenarioAdjustment where
  department : Option String := none
  account : Option String := none
  percentage_change : ℚ := 0
deriving DecidableEq

/-- `ScenarioAdjustment.matches` (src/app/scenario.py lines 36-42).  Python
truthiness: a `None` or empty-string filter imposes no constraint; present
filters compare case-insensitively. -/
def ScenarioAdjustment.matches (adj : ScenarioAdjustment) (row : NRow) : Bool :=
  if pyTruthyStr adj.department &&
      (pyLower row.department != pyLower (adj.department.getD "")) then
    false
  else if pyTruthyStr adj.account &&
      (pyLower row.account != pyLower (adj.account.getD "")) then
    false
  else true

/-- Embeds `apply_adjustments` (src/app/scenario.py lines 45-58): for each row,
fold every matching rule over the value in list order, multiplying by
`1 + percentage_change`. -/
def apply_adjustments (rows : List NRow) (adjustments : List ScenarioAdjustment) :
    List NRow :=
  rows.map (fun row =>
    ⟨row.period, row.department, row.account,
     adjustments.foldl
       (fun v adj => if adj.matches row then v * (1 + adj.percentage_change) else v)
       row.value,
     row.currency, row.metadata⟩)

/-! ### Observation helpers used to state the claims -/

/-- The total a department summary reports for a `(period, department)` group:
the sum of the totals of its rows carrying that key (zero when absent). -/
def totalOf (rows : List (String × String × ℚ)) (p d : String) : ℚ :=
  ((rows.filter (fun r => r.1 == p && r.2.1 == d)).map (fun r => r.2.2)).sum

/-- The `(period, department)` keys of a department summary, in row order. -/
def keysOf (rows : List (String × String × ℚ)) : List (String × String) :=
  rows.map (fun r => (r.1, r.2.1))

/-- The `(period, department, account)` keys of a variance report, in row
order. -/
def keys3Of (rows : List (String × String × String × ℚ × ℚ × ℚ)) :
    List (String × String × String) :=
  rows.map (fun r => (r.1, r.2.1, r.2.2.1))

/-- The distinct scenario labels present in a fact list. -/
def scenariosOf (facts : List Fact) : List String := (facts.map Fact.scenario).dedup

/-! ### Order lemmas -/

theorem charListLt_irrefl : ∀ l : List Char, charListLt l l = false
  | [] => rfl
  | a :: as => by simp [charListLt, charListLt_irrefl as]

theorem charListLt_trans : ∀ a b c : List Char,
    charListLt a b = true → charListLt b c = true → charListLt a c = true
  | _, [], _, h1, _ => by simp [charListLt] at h1
  | a, b :: bs, [], _, h2 => by simp [charListLt] at h2
  | [], b :: bs, c :: cs, _, _ => rfl
  | a :: as, b :: bs, c :: cs, h1, h2 => by
    simp only [charListLt, Bool.or_eq_true, Bool.and_eq_true, decide_eq_true_eq,
      beq_iff_eq] at h1 h2 ⊢
    rcases h1 with h1 | ⟨rfl, h1⟩
    · rcases h2 with h2 | ⟨rfl, h2⟩
      · exact Or.inl (lt_trans h1 h2)
      · exact Or.inl h1
    · rcases h2 with h2 | ⟨rfl, h2⟩
      · exact Or.inl h2
      · exact Or.inr ⟨rfl, charListLt_trans as bs cs h1 h2⟩

theorem charListLt_of_ne : ∀ a b : List Char,
    a ≠ b → (charListLt a b || charListLt b a) = true
  | [], [], h => absurd rfl h
  | [], _ :: _, _ => by simp [charListLt]
  | _ :: _, [], _ => by simp [charListLt]
  | a :: as, b :: bs, h => by
    simp only [charListLt, Bool.or_eq_true, Bool.and_eq_true, decide_eq_true_eq,
      beq_iff_eq]
    rcases lt_trichotomy a b with hab | rfl | hab
    · exact Or.inl (Or.inl hab)
    · have hne : as ≠ bs := fun hh => h (by rw [hh])
      rcases Bool.or_eq_true_iff.mp (charListLt_of_ne as bs hne) with hh | hh
      · exact Or.inl (Or.inr ⟨rfl, hh⟩)
      · exact Or.inr (Or.inr ⟨rfl, hh⟩)
    · exact Or.inr (Or.inl hab)

theorem strLt_trans {a b c : String} (h1 : strLt a b = true) (h2 : strLt b c = true) :
    strLt a c = true :=
  charListLt_trans _ _ _ h1 h2

theorem strLt_of_ne {a b : String} (h : a ≠ b) : (strLt a b || strLt b a) = true :=
  charListLt_of_ne _ _ (fun hh => h (by
    have := congrArg (fun l => String.mk l) hh
    simpa [String.toList] using this))

theorem strLt_irrefl (a : String) : strLt a a = false := charListLt_irrefl _

theorem strLt_ne {a b : String} (h : strLt a b = true) : a ≠ b := by
  rintro rfl
  rw [strLt_irrefl a] at h
  cases h

theorem strLe_total (a b : String) : (strLe a b || strLe b a) = true := by
  by_cases h : a = b
  · subst h; simp [strLe]
  · rcases Bool.or_eq_true_iff.mp (strLt_of_ne h) with hh | hh <;>
      simp [strLe, hh]

theorem strLe_trans {a b c : String} (h1 : strLe a b = true) (h2 : strLe b c = true) :
    strLe a c = true := by
  simp only [strLe, Bool.or_eq_true, beq_iff_eq] at h1 h2 ⊢
  rcases h1 with h1 | rfl
  · rcases h2 with h2 | rfl
    · exact Or.inl (strLt_trans h1 h2)
    · exact Or.inl h1
  · exact h2

theorem strLt_of_le_of_ne {a b : String} (h1 : strLe a b = true) (h2 : a ≠ b) :
    strLt a b = true := by
  simp only [strLe, Bool.or_eq_true, beq_iff_eq] at h1
  rcases h1 with h1 | rfl
  · exact h1
  · exact absurd rfl h2

theorem keyLe_total (a b : String × String) : (keyLe a b || keyLe b a) = true := by
  by_cases h : a.1 = b.1
  · rcases Bool.or_eq_true_iff.mp (strLe_total a.2 b.2) with hh | hh <;>
      simp [keyLe, h, hh]
  · rcases Bool.or_eq_true_iff.mp (strLt_of_ne h) with hh | hh <;>
      simp [keyLe, hh]

theorem keyLe_trans {a b c : String × String} (h1 : keyLe a b = true)
    (h2 : keyLe b c = true) : keyLe a c = true := by
  simp only [keyLe, Bool.or_eq_true, Bool.and_eq_true, beq_iff_eq] at h1 h2 ⊢
  rcases h1 with h1 | ⟨he1, h1⟩
  · rcases h2 with h2 | ⟨he2, h2⟩
    · exact Or.inl (strLt_trans h1 h2)
    · exact Or.inl (he2 ▸ h1)
  · rcases h2 with h2 | ⟨he2, h2⟩
    · exact Or.inl (he1 ▸ h2)
    · exact Or.inr ⟨he1.trans he2, strLe_trans h1 h2⟩

theorem key3Le_total (a b : String × String × String) : (key3Le a b || key3Le b a) = true := by
  by_cases h : a.1 = b.1
  · rcases Bool.or_eq_true_iff.mp (keyLe_total a.2 b.2) with hh | hh <;>
      simp [key3Le, h, hh]
  · rcases Bool.or_eq_true_iff.mp (strLt_of_ne h) with hh | hh <;>
      simp [key3Le, hh]

theorem key3Le_trans {a b c : String × String × String} (h1 : key3Le a b = true)
    (h2 : key3Le b c = true) : key3Le a c = true := by
  simp only [key3Le, Bool.or_eq_true, Bool.and_eq_true, beq_iff_eq] at h1 h2 ⊢
  rcases h1 with h1 | ⟨he1, h1⟩
  · rcases h2 with h2 | ⟨he2, h2⟩
    · exact Or.inl (strLt_trans h1 h2)
    · exact Or.inl (he2 ▸ h1)
  · rcases h2 with h2 | ⟨he2, h2⟩
    · exact Or.inl (he1 ▸ h2)
    · exact Or.inr ⟨he1.trans he2, keyLe_trans h1 h2⟩

/-! ### Sorting lemmas -/

theorem sortBy_perm {α : Type} (le : α → α → Bool) (l : List α) :
    List.Perm (sortBy le l) l := by
  letI : DecidableRel (fun a b : α => le a b = true) :=
    fun a b => Bool.decEq (le a b) true
  exact List.perm_insertionSort _ l

theorem sortBy_pairwise {α : Type} (le : α → α → Bool)
    (htrans : ∀ a b c, le a b = true → le b c = true → le a c = true)
    (htot : ∀ a b, (le a b || le b a) = true) (l : List α) :
    (sortBy le l).Pairwise (fun a b => le a b = true) := by
  letI : DecidableRel (fun a b : α => le a b = true) :=
    fun a b => Bool.decEq (le a b) true
  haveI : IsTotal α (fun a b => le a b = true) :=
    ⟨fun a b => Bool.or_eq_true_iff.mp (htot a b)⟩
  haveI : IsTrans α (fun a b => le a b = true) :=
    ⟨htrans⟩
  exact List.sorted_insertionSort _ l

theorem pairwise_strLt_of_strLe_nodup : ∀ l : List String,
    l.Pairwise (fun a b => strLe a b = true) → l.Nodup →
    l.Pairwise (fun a b => strLt a b = true)
  | [], _, _ => List.Pairwise.nil
  | a :: t, hle, hnd => by
    rcases List.pairwise_cons.mp hle with ⟨hle1, hle2⟩
    rcases List.nodup_cons.mp hnd with ⟨hnd1, hnd2⟩
    refine List.pairwise_cons.mpr ⟨fun b hb => ?_, pairwise_strLt_of_strLe_nodup t hle2 hnd2⟩
    exact strLt_of_le_of_ne (hle1 b hb) (fun hh => hnd1 (hh ▸ hb))

/-! ### Aggregation lemmas -/

theorem exceptMapM_error {α β : Type} (f : α → Except LoadError β) :
    ∀ (l : List α) (x : α), x ∈ l → ∀ e, f x = .error e →
      ∃ e2, l.mapM f = Except.error e2 := by
  intro l
  induction l with
  | nil => intro x hx; cases hx
  | cons a t ih =>
    intro x hx e hfx
    cases hmem : f a with
    | error e3 => exact ⟨e3, by rw [List.mapM_cons, hmem]; rfl⟩
    | ok b =>
      rcases List.mem_cons.mp hx with h | h
      · subst h; rw [hmem] at hfx; cases hfx
      · obtain ⟨e2, h2⟩ := ih x h e hfx
        exact ⟨e2, by rw [List.mapM_cons, hmem]; show t.mapM f >>= _ = _; rw [h2]; rfl⟩

theorem caseSum_eq (s : String) : ∀ l : List Fact,
    caseSum l s = ((l.filter (fun f => f.scenario == s)).map Fact.value).sum := by
  intro l
  induction l with
  | nil => rfl
  | cons f t ih =>
    rcases hb : (f.scenario == s) with _ | _
    · rw [caseSum, List.map_cons, List.sum_cons, List.filter_cons]
      simp only [hb, Bool.false_eq_true, if_false, ite_false]
      rw [← caseSum, ih, zero_add]
    · rw [caseSum, List.map_cons, List.sum_cons, List.filter_cons]
      simp only [hb, if_true, ite_true]
      rw [List.map_cons, List.sum_cons, ← caseSum, ih]

theorem sum_map_split {α : Type} (val : α → ℚ) (q : α → Bool) : ∀ l : List α,
    (l.map val).sum =
      ((l.filter q).map val).sum + ((l.filter (fun x => !q x)).map val).sum := by
  intro l
  induction l with
  | nil => simp
  | cons a t ih =>
    by_cases h : q a = true <;> simp [List.filter_cons, h, ih] <;> ring

theorem filter_comm {α : Type} (p q : α → Bool) (l : List α) :
    (l.filter p).filter q = (l.filter q).filter p := by
  rw [List.filter_filter, List.filter_filter]
  exact List.filter_congr (fun x _ => Bool.and_comm _ _)

theorem groupTotal_split (fs : List Fact) (q : Fact → Bool) (p d : String) :
    groupTotal fs p d =
      groupTotal (fs.filter q) p d + groupTotal (fs.filter (fun f => !q f)) p d := by
  unfold groupTotal
  rw [sum_map_split Fact.value q
      (fs.filter (fun f => f.period == p && f.department == d))]
  rw [filter_comm _ q, filter_comm _ (fun f => !q f)]

theorem groupTotal_partition (p d : String) :
    ∀ S : List String, S.Nodup →
      ∀ fs : List Fact, (∀ f ∈ fs, f.scenario ∈ S) →
        groupTotal fs p d =
          (S.map (fun s => groupTotal (fs.filter (fun f => f.scenario == s)) p d)).sum := by
  intro S
  induction S with
  | nil =>
    intro _ fs hall
    have hfs : fs = [] := List.eq_nil_iff_forall_not_mem.mpr (fun f hf => by cases hall f hf)
    subst hfs; rfl
  | cons s t ih =>
    intro hnd fs hall
    rcases List.nodup_cons.mp hnd with ⟨hs, hndt⟩
    rw [groupTotal_split fs (fun f => f.scenario == s) p d, List.map_cons, List.sum_cons]
    congr 1
    have hall2 : ∀ f ∈ fs.filter (fun f => !(f.scenario == s)), f.scenario ∈ t := by
      intro f hf
      rcases List.mem_filter.mp hf with ⟨hf1, hf2⟩
      rcases List.mem_cons.mp (hall f hf1) with h | h
      · rw [h] at hf2; simp at hf2
      · exact h
    rw [ih hndt _ hall2]
    apply congrArg List.sum
    apply List.map_congr_left
    intro u hu
    have hne : u ≠ s := fun hh => hs (hh ▸ hu)
    congr 1
    rw [List.filter_filter]
    apply List.filter_congr
    intro f _
    by_cases hf : f.scenario = u
    · simp [hf, hne]
    · simp [hf]

theorem totalOf_keymap (fs : List Fact) :
    ∀ K : List (String × String), K.Nodup → ∀ p d : String,
      totalOf (K.map (fun k => (k.1, k.2, groupTotal fs k.1 k.2))) p d =
        if (p, d) ∈ K then groupTotal fs p d else 0 := by
  intro K
  induction K with
  | nil => intro _ p d; simp [totalOf]
  | cons k t ih =>
    intro hnd p d
    obtain ⟨k1, k2⟩ := k
    rcases List.nodup_cons.mp hnd with ⟨hk, hndt⟩
    by_cases h : (k1, k2) = (p, d)
    · injection h with h1 h2
      subst h1
      subst h2
      rw [totalOf, List.map_cons, List.filter_cons]
      simp only [beq_self_eq_true, Bool.and_self, if_true, ite_true]
      rw [List.map_cons, List.sum_cons, ← totalOf, ih hndt k1 k2, if_neg hk,
        if_pos (List.mem_cons_self _ _), add_zero]
    · have hpred : ((k1 == p && k2 == d) : Bool) = false := by
        rcases hb : ((k1 == p && k2 == d) : Bool) with _ | _
        · rfl
        · rcases Bool.and_eq_true_iff.mp hb with ⟨h1, h2⟩
          exact absurd (Prod.ext (beq_iff_eq.mp h1) (beq_iff_eq.mp h2)) h
      rw [totalOf, List.map_cons, List.filter_cons]
      simp only [hpred, Bool.false_eq_true, if_false, ite_false]
      rw [← totalOf, ih hndt p d]
      have hm : ((p, d) ∈ (k1, k2) :: t) ↔ ((p, d) ∈ t) := by
        rw [List.mem_cons]
        exact ⟨fun hh => hh.resolve_left (fun hh2 => h hh2.symm), Or.inr⟩
      by_cases hmem : (p, d) ∈ t
      · rw [if_pos hmem, if_pos (hm.mpr hmem)]
      · rw [if_neg hmem, if_neg (fun hh => hmem (hm.mp hh))]

theorem totalOf_summarise (fs : List Fact) (p d : String) :
    totalOf (summarise fs) p d = groupTotal fs p d := by
  have hnd : (sortBy keyLe (fs.map (fun f => (f.period, f.department))).dedup).Nodup :=
    (sortBy_perm keyLe _).nodup_iff.mpr (List.nodup_dedup _)
  rw [summarise, totalOf_keymap fs _ hnd p d]
  by_cases h : (p, d) ∈ sortBy keyLe (fs.map (fun f => (f.period, f.department))).dedup
  · rw [if_pos h]
  · rw [if_neg h]
    have hnone : fs.filter (fun f => f.period == p && f.department == d) = [] := by
      rw [List.filter_eq_nil_iff]
      intro f hf hcon
      rcases Bool.and_eq_true_iff.mp hcon with ⟨h1, h2⟩
      apply h
      rw [(sortBy_perm keyLe _).mem_iff, List.mem_dedup]
      exact List.mem_map.mpr ⟨f, hf, by rw [beq_iff_eq.mp h1, beq_iff_eq.mp h2]⟩
    rw [groupTotal, hnone]
    rfl

/-! ### Scenario-engine lemmas -/

theorem foldl_adjust (r : NRow) : ∀ (adjs : List ScenarioAdjustment) (v : ℚ),
    adjs.foldl (fun v adj => if adj.matches r then v * (1 + adj.percentage_change) else v) v =
      v * ((adjs.filter (fun adj => adj.matches r)).map
        (fun adj => 1 + adj.percentage_change)).prod
  | [], v => by simp
  | a :: t, v => by
    rcases hm : a.matches r with _ | _
    · rw [List.foldl_cons, List.filter_cons]
      simp only [hm, Bool.false_eq_true, if_false, ite_false]
      exact foldl_adjust r t v
    · rw [List.foldl_cons, List.filter_cons]
      simp only [hm, if_true, ite_true]
      rw [foldl_adjust r t (v * (1 + a.percentage_change)), List.map_cons, List.prod_cons]
      ring

/-! ### Claim theorems -/

/-- C3: for every source row list and ordered adjustment list,
`apply_adjustments` multiplies each row's value by `1 + percentage_change`
once per matching rule, compounding multiplicatively over all matching rules
in list order; a row matched by no rule keeps its value; two universal rules
with changes 0.1 and 0.2 multiply the value by 1.1 and then by 1.2. -/
theorem apply_adjustments_compounding (rows : List NRow) (adjs : List ScenarioAdjustment) :
    apply_adjustments rows adjs = rows.map (fun r =>
      ⟨r.period, r.department, r.account,
       r.value * ((adjs.filter (fun adj => adj.matches r)).map
         (fun adj => 1 + adj.percentage_change)).prod,
       r.currency, r.metadata⟩)
    ∧ (∀ r : NRow, (∀ adj ∈ adjs, adj.matches r = false) →
        apply_adjustments [r] adjs = [r])
    ∧ (∀ r : NRow, apply_adjustments [r]
        [⟨none, none, 1/10⟩, ⟨none, none, 2/10⟩] =
        [⟨r.period, r.department, r.account, r.value * (11/10) * (12/10),
          r.currency, r.metadata⟩]) := by
  refine ⟨?_, ?_, ?_⟩
  · unfold apply_adjustments
    apply List.map_congr_left
    intro r _
    rw [foldl_adjust]
  · intro r h
    have hfil : adjs.filter (fun adj => adj.matches r) = [] :=
      List.filter_eq_nil_iff.mpr (fun adj ha => by simp [h adj ha])
    unfold apply_adjustments
    rw [List.map_cons, List.map_nil, foldl_adjust, hfil]
    simp
  · intro r
    unfold apply_adjustments
    rw [List.map_cons, List.map_nil, foldl_adjust]
    have hfil : ([⟨none, none, 1/10⟩, ⟨none, none, 2/10⟩] :
        List ScenarioAdjustment).filter (fun adj => adj.matches r) =
        [⟨none, none, 1/10⟩, ⟨none, none, 2/10⟩] :=
      List.filter_eq_self.mpr (fun adj ha => by
        rcases List.mem_cons.mp ha with h | h
        · subst h; rfl
        · rcases List.mem_cons.mp h with h | h
          · subst h; rfl
          · cases h)
    rw [hfil]
    simp only [List.map_cons, List.map_nil, List.prod_cons, List.prod_nil]
    ring_nf

/-- C10: a `ScenarioAdjustment` whose department (resp. account) filter is the
empty string behaves exactly like an absent (`None`) filter: it matches every
row, instead of requiring the row's department (resp. account) to be empty. -/
theorem matches_empty_filter (r : NRow) (dep acc : Option String) (pc : ℚ) :
    (ScenarioAdjustment.mk (some "") acc pc).matches r =
      (ScenarioAdjustment.mk none acc pc).matches r
    ∧ (ScenarioAdjustment.mk dep (some "") pc).matches r =
      (ScenarioAdjustment.mk dep none pc).matches r
    ∧ (ScenarioAdjustment.mk (some "") (some "") pc).matches r = true := by
  refine ⟨?_, ?_, ?_⟩ <;>
    simp [ScenarioAdjustment.matches, pyTruthyStr]

/-- C1 (amended): `_normalise_row` trims whitespace from period, department
and account but performs no non-emptiness check: every row whose required
keys are present and whose value parses is accepted — including rows whose
trimmed period, department or account is empty — and its fact carries the
(possibly empty) trimmed fields. -/
theorem normaliseRow_no_emptiness_check (row : List (String × String))
    (p d a v : String) (q : ℚ)
    (hp : pyLookup row "period" = some p)
    (hd : pyLookup row "department" = some d)
    (ha : pyLookup row "account" = some a)
    (hv : pyLookup row "value" = some v)
    (hq : pyFloat (pyStrip (pyRemoveCommas v)) = some q) :
    normaliseRow row = .ok ⟨pyStrip p, pyStrip d, pyStrip a, q,
      pyStrip (pyOrElse (pyLookup row "currency") "USD"),
      pyStrip (pyOrElse (pyLookup row "metadata") "")⟩ := by
  simp [normaliseRow, hp, hd, ha, hv, hq]

unseal Rat.mul Rat.inv Rat.add Rat.sub in
/-- C1 counterexample: a row whose period is whitespace-only is not rejected:
`read_dataset` returns it as a fact with empty period, ready for insertion. -/
theorem blank_period_row_stored :
    read_dataset (some ["period", "department", "account", "value"])
      [[" ", "Sales", "Revenue", "1"]] =
      .ok [⟨"", "Sales", "Revenue", 1, "USD", ""⟩] := by decide

unseal Rat.mul Rat.inv Rat.add Rat.sub in
/-- Witness for C1's amended theorem at a concrete blank-period row. -/
theorem normaliseRow_no_emptiness_check_witness :
    normaliseRow [("period", " "), ("department", "Sales"), ("account", "Revenue"),
      ("value", "1")] = .ok ⟨"", "Sales", "Revenue", 1, "USD", ""⟩ :=
  normaliseRow_no_emptiness_check _ " " "Sales" "Revenue" "1" 1
    (by decide) (by decide) (by decide) (by decide) (by decide)

theorem keysOf_summarise (fs : List Fact) :
    keysOf (summarise fs) =
      sortBy keyLe (fs.map (fun f => (f.period, f.department))).dedup := by
  unfold keysOf summarise
  rw [List.map_map]
  have h : ((fun r : String × String × ℚ => (r.1, r.2.1)) ∘
      (fun k : String × String => (k.1, k.2, groupTotal fs k.1 k.2))) = id :=
    funext fun k => rfl
  rw [h, List.map_id]

/-- C2 (amended): for every non-empty scenario label `s` — including
synthesized labels such as `"scenario:<name>"` — `department_summary`
filtered to `s` groups and sums exactly the facts whose scenario equals `s`
(no fact of any other scenario contributes), one row per distinct
`(period, department)` key, ordered by period then department ascending;
for the empty-string label, Python truthiness ignores the filter and all
facts are aggregated. -/
theorem summarise_by_department_filter (facts : List Fact) (s : String) (hs : s ≠ "") :
    summarise_by_department facts (some s) =
      summarise (facts.filter (fun f => f.scenario == s))
    ∧ (keysOf (summarise_by_department facts (some s))).Pairwise
        (fun a b => keyLe a b = true)
    ∧ (keysOf (summarise_by_department facts (some s))).Nodup
    ∧ (∀ p d, (p, d) ∈ keysOf (summarise_by_department facts (some s)) ↔
        ∃ f ∈ facts, f.scenario = s ∧ f.period = p ∧ f.department = d)
    ∧ (∀ p d t, (p, d, t) ∈ summarise_by_department facts (some s) →
        t = ((facts.filter (fun f =>
          f.scenario == s && (f.period == p && f.department == d))).map Fact.value).sum)
    ∧ summarise_by_department facts (some "") = summarise facts := by
  have hbr : summarise_by_department facts (some s) =
      summarise (facts.filter (fun f => f.scenario == s)) := by
    simp [summarise_by_department, pyTruthyStr, hs]
  refine ⟨hbr, ?_, ?_, ?_, ?_, rfl⟩
  · rw [hbr, keysOf_summarise]
    exact sortBy_pairwise keyLe (fun a b c => keyLe_trans) keyLe_total _
  · rw [hbr, keysOf_summarise]
    exact ((sortBy_perm keyLe _).nodup_iff).mpr (List.nodup_dedup _)
  · intro p d
    rw [hbr, keysOf_summarise, (sortBy_perm keyLe _).mem_iff, List.mem_dedup]
    constructor
    · intro h
      obtain ⟨f, hf, hfk⟩ := List.mem_map.mp h
      rcases List.mem_filter.mp hf with ⟨hf1, hf2⟩
      injection hfk with hk1 hk2
      exact ⟨f, hf1, beq_iff_eq.mp hf2, hk1, hk2⟩
    · rintro ⟨f, hf, hfs, hfp, hfd⟩
      exact List.mem_map.mpr ⟨f,
        List.mem_filter.mpr ⟨hf, beq_iff_eq.mpr hfs⟩, by rw [hfp, hfd]⟩
  · intro p d t hmem
    rw [hbr] at hmem
    unfold summarise at hmem
    obtain ⟨k, _, hk⟩ := List.mem_map.mp hmem
    injection hk with hk1 hk23
    injection hk23 with hk2 hk3
    subst hk1
    subst hk2
    rw [← hk3, groupTotal, List.filter_filter]
    apply congrArg
    apply congrArg
    apply List.filter_congr
    intro f _
    rw [Bool.and_comm]

unseal Rat.mul Rat.inv Rat.add Rat.sub in
/-- C2 counterexample: with the empty-string scenario label, a fact whose
scenario is "other" still contributes to the summary, so the result is not
the aggregation of exactly the facts with scenario `""` (which is empty). -/
theorem empty_scenario_filter_ignored :
    summarise_by_department [⟨"src", "other", "p", "d", "a", 1, "USD", ""⟩] (some "") =
      [("p", "d", 1)]
    ∧ summarise ([⟨"src", "other", "p", "d", "a", 1, "USD", ""⟩].filter
        (fun f => f.scenario == "")) = [] :=
  ⟨by decide, by decide⟩

unseal Rat.mul Rat.inv Rat.add Rat.sub in
/-- Witness for C2's amended theorem at a concrete store and label. -/
theorem summarise_by_department_filter_witness :
    summarise_by_department
      [⟨"src", "actual", "p", "d", "a", 2, "USD", ""⟩,
       ⟨"src", "budget", "p", "d", "a", 5, "USD", ""⟩] (some "actual") =
      summarise ([⟨"src", "actual", "p", "d", "a", 2, "USD", ""⟩,
        ⟨"src", "budget", "p", "d", "a", 5, "USD", ""⟩].filter
          (fun f => f.scenario == "actual")) :=
  (summarise_by_department_filter _ "actual" (by decide)).1

/-- C8 (amended): when no stored fact carries the empty-string scenario label,
the unfiltered department summary equals, group-wise, the sum over every
distinct scenario present of the per-scenario summary totals. -/
theorem department_summary_additive (facts : List Fact)
    (hs : ∀ f ∈ facts, f.scenario ≠ "") (p d : String) :
    totalOf (summarise_by_department facts none) p d =
      ((scenariosOf facts).map
        (fun s => totalOf (summarise_by_department facts (some s)) p d)).sum := by
  have h0 : summarise_by_department facts none = summarise facts := rfl
  rw [h0, totalOf_summarise]
  rw [groupTotal_partition p d (scenariosOf facts) (List.nodup_dedup _) facts
    (fun f hf => List.mem_dedup.mpr (List.mem_map.mpr ⟨f, hf, rfl⟩))]
  apply congrArg List.sum
  apply List.map_congr_left
  intro s hsmem
  obtain ⟨f, hf, hfs⟩ := List.mem_map.mp (List.mem_dedup.mp hsmem)
  have hsne : s ≠ "" := hfs ▸ hs f hf
  have hbr : summarise_by_department facts (some s) =
      summarise (facts.filter (fun f => f.scenario == s)) := by
    simp [summarise_by_department, pyTruthyStr, hsne]
  rw [hbr, totalOf_summarise]

unseal Rat.mul Rat.inv Rat.add Rat.sub in
/-- C8 counterexample: with a fact in the empty-string scenario, the claimed
additivity fails: the unfiltered total is 2 but the per-scenario totals sum
to 3, because the empty label's "filtered" summary aggregates everything. -/
theorem empty_scenario_breaks_additivity :
    totalOf (summarise_by_department
      [⟨"s", "", "p", "d", "x", 1, "USD", ""⟩,
       ⟨"s", "a", "p", "d", "x", 1, "USD", ""⟩] none) "p" "d" = 2
    ∧ ((scenariosOf [⟨"s", "", "p", "d", "x", 1, "USD", ""⟩,
          ⟨"s", "a", "p", "d", "x", 1, "USD", ""⟩]).map
        (fun s => totalOf (summarise_by_department
          [⟨"s", "", "p", "d", "x", 1, "USD", ""⟩,
           ⟨"s", "a", "p", "d", "x", 1, "USD", ""⟩] (some s)) "p" "d")).sum = 3 :=
  ⟨by decide, by decide⟩

unseal Rat.mul Rat.inv Rat.add Rat.sub in
/-- Witness for C8's amended theorem at a concrete two-scenario store. -/
theorem department_summary_additive_witness :
    totalOf (summarise_by_department
      [⟨"s", "actual", "p", "d", "x", 1, "USD", ""⟩,
       ⟨"s", "budget", "p", "d", "x", 2, "USD", ""⟩] none) "p" "d" =
      ((scenariosOf [⟨"s", "actual", "p", "d", "x", 1, "USD", ""⟩,
          ⟨"s", "budget", "p", "d", "x", 2, "USD", ""⟩]).map
        (fun s => totalOf (summarise_by_department
          [⟨"s", "actual", "p", "d", "x", 1, "USD", ""⟩,
           ⟨"s", "budget", "p", "d", "x", 2, "USD", ""⟩] (some s)) "p" "d")).sum :=
  department_summary_additive _ (by decide) "p" "d"

theorem bool_eq_of_iff {x y : Bool} (h : x = true ↔ y = true) : x = y := by
  rcases x <;> rcases y <;> simp_all

/-- C4: `variance_report` returns exactly one row per `(period, department,
account)` key among the facts of the two scenarios, in ascending key order;
each row's actual (resp. budget) total is the sum of the values of exactly
the matching facts with the actual (resp. budget) scenario — zero when that
side is absent — and the variance is their difference. -/
theorem variance_report_correct (facts : List Fact) (a b : String) :
    (keys3Of (variance_report facts a b)).Pairwise (fun x y => key3Le x y = true)
    ∧ (keys3Of (variance_report facts a b)).Nodup
    ∧ (∀ p d acc, (p, d, acc) ∈ keys3Of (variance_report facts a b) ↔
        ∃ f ∈ facts, (f.scenario = a ∨ f.scenario = b) ∧
          f.period = p ∧ f.department = d ∧ f.account = acc)
    ∧ (∀ p d acc act bud v, (p, d, acc, act, bud, v) ∈ variance_report facts a b →
        act = ((facts.filter (fun f => f.scenario == a &&
            (f.period == p && f.department == d && f.account == acc))).map Fact.value).sum
        ∧ bud = ((facts.filter (fun f => f.scenario == b &&
            (f.period == p && f.department == d && f.account == acc))).map Fact.value).sum
        ∧ v = act - bud) := by
  have hkeys : keys3Of (variance_report facts a b) =
      sortBy key3Le ((facts.filter
        (fun f => f.scenario == a || f.scenario == b)).map vKey).dedup := by
    unfold keys3Of variance_report
    rw [List.map_map]
    have h : ((fun r : String × String × String × ℚ × ℚ × ℚ => (r.1, r.2.1, r.2.2.1)) ∘
        (fun k : String × String × String =>
          (k.1, k.2.1, k.2.2,
           caseSum ((facts.filter (fun f => f.scenario == a || f.scenario == b)).filter
             (fun f => vKey f == k)) a,
           caseSum ((facts.filter (fun f => f.scenario == a || f.scenario == b)).filter
             (fun f => vKey f == k)) b,
           caseSum ((facts.filter (fun f => f.scenario == a || f.scenario == b)).filter
             (fun f => vKey f == k)) a -
           caseSum ((facts.filter (fun f => f.scenario == a || f.scenario == b)).filter
             (fun f => vKey f == k)) b))) = (fun k => k) :=
      funext fun k => rfl
    rw [h, List.map_id']
  refine ⟨?_, ?_, ?_, ?_⟩
  · rw [hkeys]
    exact sortBy_pairwise key3Le (fun x y z => key3Le_trans) key3Le_total _
  · rw [hkeys]
    exact ((sortBy_perm key3Le _).nodup_iff).mpr (List.nodup_dedup _)
  · intro p d acc
    rw [hkeys, (sortBy_perm key3Le _).mem_iff, List.mem_dedup]
    constructor
    · intro h
      obtain ⟨f, hf, hfk⟩ := List.mem_map.mp h
      rcases List.mem_filter.mp hf with ⟨hf1, hf2⟩
      have hsc : f.scenario = a ∨ f.scenario = b := by
        rcases Bool.or_eq_true_iff.mp hf2 with h2 | h2
        · exact Or.inl (beq_iff_eq.mp h2)
        · exact Or.inr (beq_iff_eq.mp h2)
      unfold vKey at hfk
      injection hfk with h1 h23
      injection h23 with h2 h3
      exact ⟨f, hf1, hsc, h1, h2, h3⟩
    · rintro ⟨f, hf, hsc, hp, hd, hacc⟩
      refine List.mem_map.mpr ⟨f, List.mem_filter.mpr ⟨hf, ?_⟩, ?_⟩
      · rcases hsc with h | h
        · rw [Bool.or_eq_true_iff]; exact Or.inl (beq_iff_eq.mpr h)
        · rw [Bool.or_eq_true_iff]; exact Or.inr (beq_iff_eq.mpr h)
      · unfold vKey; rw [hp, hd, hacc]
  · intro p d acc act bud v hmem
    simp only [variance_report] at hmem
    obtain ⟨k, hkmem, hk⟩ := List.mem_map.mp hmem
    obtain ⟨k1, k2, k3⟩ := k
    injection hk with e1 hk2
    injection hk2 with e2 hk3
    injection hk3 with e3 hk4
    injection hk4 with e4 hk5
    injection hk5 with e5 e6
    subst e1
    subst e2
    subst e3
    have hsum : ∀ s : String, s = a ∨ s = b →
        caseSum ((facts.filter (fun f => f.scenario == a || f.scenario == b)).filter
          (fun f => vKey f == (k1, k2, k3))) s =
        ((facts.filter (fun f => f.scenario == s &&
          (f.period == k1 && f.department == k2 && f.account == k3))).map Fact.value).sum := by
      intro s hsab
      rw [caseSum_eq, List.filter_filter, List.filter_filter]
      apply congrArg
      apply congrArg
      apply List.filter_congr
      intro f _
      apply bool_eq_of_iff
      simp only [Bool.and_eq_true, Bool.or_eq_true, beq_iff_eq, vKey, Prod.mk.injEq]
      rcases hsab with rfl | rfl <;> constructor <;> tauto
    refine ⟨?_, ?_, ?_⟩
    · rw [← e4, hsum a (Or.inl rfl)]
    · rw [← e5, hsum b (Or.inr rfl)]
    · rw [← e6, e4, e5]

unseal Rat.mul Rat.inv Rat.add Rat.sub in
/-- Witness for C4 at the spec's concrete variance example. -/
theorem variance_report_correct_witness :
    (120 : ℚ) = (([⟨"s", "actual", "01", "Sales", "Revenue", 120, "USD", ""⟩,
        ⟨"s", "budget", "01", "Sales", "Revenue", 100, "USD", ""⟩].filter
      (fun f => f.scenario == "actual" &&
        (f.period == "01" && f.department == "Sales" && f.account == "Revenue"))).map
          Fact.value).sum
    ∧ (100 : ℚ) = (([⟨"s", "actual", "01", "Sales", "Revenue", 120, "USD", ""⟩,
        ⟨"s", "budget", "01", "Sales", "Revenue", 100, "USD", ""⟩].filter
      (fun f => f.scenario == "budget" &&
        (f.period == "01" && f.department == "Sales" && f.account == "Revenue"))).map
          Fact.value).sum
    ∧ (20 : ℚ) = 120 - 100 :=
  (variance_report_correct
    [⟨"s", "actual", "01", "Sales", "Revenue", 120, "USD", ""⟩,
     ⟨"s", "budget", "01", "Sales", "Revenue", 100, "USD", ""⟩]
    "actual" "budget").2.2.2 "01" "Sales" "Revenue" 120 100 20 (by decide)

/-! ### Missing-column lemmas -/

theorem missingColumns_mem (headers : List String) (c : String) :
    c ∈ missingColumns headers ↔ c ∈ REQUIRED_COLUMNS ∧ ¬ c ∈ headers := by
  unfold missingColumns
  rw [(sortBy_perm strLe _).mem_iff, List.mem_filter]
  simp

theorem missingColumns_pairwise (headers : List String) :
    (missingColumns headers).Pairwise (fun x y => strLt x y = true) := by
  apply pairwise_strLt_of_strLe_nodup
  · exact sortBy_pairwise strLe (fun x y z => strLe_trans) strLe_total _
  · exact ((sortBy_perm strLe _).nodup_iff).mpr
      ((show REQUIRED_COLUMNS.Nodup by decide).filter _)

/-- C5 (amended): for every input with at least one header cell (delimited) or
at least one non-blank header cell (spreadsheet) whose lower-cased trimmed
header names are missing one or more required columns, the load fails with a
SchemaError listing exactly the missing names; the listed names are strictly
sorted (hence deduplicated) and are exactly the required columns absent from
the headers.  (An input with no header cells at all returns zero facts
instead — see the counterexample.) -/
theorem missing_columns_schema_error :
    (∀ (fieldnames : List String) (records : List (List String)),
      fieldnames ≠ [] →
      (∃ c ∈ REQUIRED_COLUMNS, ¬ c ∈ fieldnames.map (fun h => pyLower (pyStrip h))) →
      read_dataset (some fieldnames) records =
        .error (.schema (missingColumns (fieldnames.map (fun h => pyLower (pyStrip h))))))
    ∧ (∀ (header_row : List (Option String)) (data_rows : List (List (Option String))),
      (∃ c ∈ header_row, headerName c ≠ "") →
      (∃ c ∈ REQUIRED_COLUMNS,
        ¬ c ∈ (header_row.map headerName).filter (fun h => h != "")) →
      normalisedRowsFromIterable header_row data_rows =
        .error (.schema (missingColumns
          ((header_row.map headerName).filter (fun h => h != "")))))
    ∧ (∀ headers : List String,
      (missingColumns headers).Pairwise (fun x y => strLt x y = true)
      ∧ ∀ c, c ∈ missingColumns headers ↔ c ∈ REQUIRED_COLUMNS ∧ ¬ c ∈ headers) := by
  refine ⟨?_, ?_, fun headers => ⟨missingColumns_pairwise headers,
    fun c => missingColumns_mem headers c⟩⟩
  · intro fieldnames records hne hmiss
    obtain ⟨c, hcr, hch⟩ := hmiss
    have hcm : c ∈ missingColumns (fieldnames.map fun h => pyLower (pyStrip h)) :=
      (missingColumns_mem _ c).mpr ⟨hcr, hch⟩
    have h1 : (fieldnames.map (fun h => pyLower (pyStrip h))).isEmpty = false := by
      rcases fieldnames with _ | ⟨f0, rest⟩
      · exact absurd rfl hne
      · rfl
    have h2 : (missingColumns (fieldnames.map (fun h => pyLower (pyStrip h)))).isEmpty
        = false := by
      rcases hmc : missingColumns (fieldnames.map fun h => pyLower (pyStrip h)) with _ | _
      · rw [hmc] at hcm; cases hcm
      · rfl
    simp only [read_dataset, Option.getD_some, h1, Bool.false_eq_true, if_false,
      ite_false, h2, Bool.not_false, if_true, ite_true]
  · intro header_row data_rows hex hmiss
    obtain ⟨c0, hc0, hc0ne⟩ := hex
    obtain ⟨c, hcr, hch⟩ := hmiss
    have hcm : c ∈ missingColumns ((header_row.map headerName).filter (fun h => h != "")) :=
      (missingColumns_mem _ c).mpr ⟨hcr, hch⟩
    have h1 : ((header_row.map headerName).all (fun h => h == "")) = false := by
      rcases hb : (header_row.map headerName).all (fun h => h == "") with _ | _
      · rfl
      · exact absurd (beq_iff_eq.mp
          (List.all_eq_true.mp hb (headerName c0) (List.mem_map.mpr ⟨c0, hc0, rfl⟩)))
          hc0ne
    have h2 : (missingColumns
        ((header_row.map headerName).filter (fun h => h != ""))).isEmpty = false := by
      rcases hmc : missingColumns ((header_row.map headerName).filter (fun h => h != ""))
        with _ | _
      · rw [hmc] at hcm; cases hcm
      · rfl
    simp only [normalisedRowsFromIterable, h1, Bool.false_eq_true, if_false, ite_false,
      h2, Bool.not_false, if_true, ite_true]

/-- C5 counterexample: an input whose set of non-empty header names is empty —
and therefore misses all four required columns — does not fail with a
SchemaError: both loaders return zero facts for it. -/
theorem no_headers_no_schema_error :
    normalisedRowsFromIterable [some " "] [[some "x"]] = .ok []
    ∧ read_dataset none [["x"]] = .ok [] :=
  ⟨by decide, by decide⟩

/-- Witness for C5's amended theorem at a concrete two-column header. -/
theorem missing_columns_schema_error_witness :
    read_dataset (some ["period", "value"]) [] =
      .error (.schema ["account", "department"]) :=
  missing_columns_schema_error.1 ["period", "value"] [] (by decide)
    ⟨"account", by decide, by decide⟩

/-- C6 (amended): a spreadsheet extraction whose header cells are all blank
after trimming yields zero facts and no error, and a delimited input with no
header cells at all likewise yields zero facts; but a delimited input whose
header cells exist and are all blank after trimming instead fails with a
SchemaError listing all four required columns. -/
theorem empty_header_resolution :
    (∀ (header_row : List (Option String)) (data_rows : List (List (Option String))),
      (∀ c ∈ header_row, headerName c = "") →
      normalisedRowsFromIterable header_row data_rows = .ok [])
    ∧ (∀ records, read_dataset none records = .ok [])
    ∧ (∀ records, read_dataset (some []) records = .ok [])
    ∧ (∀ (fieldnames : List String) (records : List (List String)),
      fieldnames ≠ [] → (∀ h ∈ fieldnames, pyStrip h = "") →
      read_dataset (some fieldnames) records =
        .error (.schema ["account", "department", "period", "value"])) := by
  refine ⟨?_, fun records => rfl, fun records => rfl, ?_⟩
  · intro header_row data_rows hall
    have h1 : ((header_row.map headerName).all (fun h => h == "")) = true :=
      List.all_eq_true.mpr (fun x hx => by
        obtain ⟨c, hc, rfl⟩ := List.mem_map.mp hx
        exact beq_iff_eq.mpr (hall c hc))
    simp only [normalisedRowsFromIterable, h1, if_true, ite_true]
  · intro fieldnames records hne hstrip
    have hh : ∀ x ∈ fieldnames.map (fun h => pyLower (pyStrip h)), x = "" := by
      intro x hx
      obtain ⟨h0, hh0, rfl⟩ := List.mem_map.mp hx
      rw [hstrip h0 hh0]
      rfl
    have hfil : REQUIRED_COLUMNS.filter
        (fun c => !(fieldnames.map (fun h => pyLower (pyStrip h))).contains c) =
        REQUIRED_COLUMNS := by
      apply List.filter_eq_self.mpr
      intro c hc
      have hcne : c ≠ "" := by
        simp only [REQUIRED_COLUMNS, List.mem_cons, List.not_mem_nil, or_false] at hc
        rcases hc with rfl | rfl | rfl | rfl <;> decide
      have hnm : ¬ c ∈ fieldnames.map (fun h => pyLower (pyStrip h)) :=
        fun hmem => hcne (hh c hmem)
      simpa using hnm
    have hmc : missingColumns (fieldnames.map (fun h => pyLower (pyStrip h))) =
        ["account", "department", "period", "value"] := by
      unfold missingColumns
      rw [hfil]
      decide
    have h1 : (fieldnames.map (fun h => pyLower (pyStrip h))).isEmpty = false := by
      rcases fieldnames with _ | ⟨f0, rest⟩
      · exact absurd rfl hne
      · rfl
    simp only [read_dataset, Option.getD_some, h1, Bool.false_eq_true, if_false,
      ite_false, hmc]
    rfl

/-- C6 counterexample: a delimited input whose header row has cells that are
all blank after trimming raises a SchemaError instead of being treated as an
empty extraction. -/
theorem blank_csv_header_raises :
    read_dataset (some [" ", " "]) [["x", "y"]] =
      .error (.schema ["account", "department", "period", "value"]) := by decide

/-- Witness for C6's amended theorem: an all-blank spreadsheet header yields
zero facts; an all-blank delimited header raises. -/
theorem empty_header_resolution_witness :
    normalisedRowsFromIterable [none, some " "] [[some "x"]] = .ok []
    ∧ read_dataset (some [" "]) [] =
        .error (.schema ["account", "department", "period", "value"]) :=
  ⟨empty_header_resolution.1 [none, some " "] [[some "x"]] (by decide),
   empty_header_resolution.2.2.2 [" "] [] (by decide) (by decide)⟩

unseal Rat.mul Rat.inv Rat.add Rat.sub in
/-- C7: value normalization removes every comma, trims whitespace and parses
the result as a number: with the required keys present, an unparsable value
makes `_normalise_row` fail with a ValueParseError carrying the stripped
text, and a parsable one yields exactly the parsed value; `"1,200"` strips to
`"1200"`, which parses to `1200`; and a load one of whose records fails
normalization never returns rows. -/
theorem value_parsing (row : List (String × String)) (p d a v : String)
    (hp : pyLookup row "period" = some p)
    (hd : pyLookup row "department" = some d)
    (ha : pyLookup row "account" = some a)
    (hv : pyLookup row "value" = some v) :
    (pyFloat (pyStrip (pyRemoveCommas v)) = none →
      normaliseRow row = .error (.valueParse (pyStrip (pyRemoveCommas v))))
    ∧ (∀ q, pyFloat (pyStrip (pyRemoveCommas v)) = some q →
      ∃ r, normaliseRow row = .ok r ∧ r.value = q)
    ∧ pyStrip (pyRemoveCommas "1,200") = "1200"
    ∧ pyFloat "1200" = some 1200
    ∧ (∀ (fieldnames : Option (List String)) (records : List (List String))
        (rec : List String) (e : LoadError), rec ∈ records →
        (fieldnames.getD []) ≠ [] →
        normaliseRow (lowerRow (fieldnames.getD []) rec) = .error e →
        ∀ out, read_dataset fieldnames records ≠ .ok out) := by
  refine ⟨?_, ?_, by decide, by decide, ?_⟩
  · intro h
    simp [normaliseRow, hp, hd, ha, hv, h]
  · intro q hq
    refine ⟨⟨pyStrip p, pyStrip d, pyStrip a, q,
      pyStrip (pyOrElse (pyLookup row "currency") "USD"),
      pyStrip (pyOrElse (pyLookup row "metadata") "")⟩, ?_, rfl⟩
    simp [normaliseRow, hp, hd, ha, hv, hq]
  · intro fieldnames records rec e hrec hne hfail out hok
    have h1 : ((fieldnames.getD []).map (fun h => pyLower (pyStrip h))).isEmpty = false := by
      rcases fieldnames with _ | l
      · exact absurd rfl hne
      · rcases l with _ | ⟨f0, rest⟩
        · exact absurd rfl hne
        · rfl
    simp only [read_dataset, h1, Bool.false_eq_true, if_false, ite_false] at hok
    rcases hm : (missingColumns
        ((fieldnames.getD []).map (fun h => pyLower (pyStrip h)))).isEmpty with _ | _
    · simp only [hm, Bool.not_false, if_true, ite_true] at hok
      cases hok
    · simp only [hm, Bool.not_true, Bool.false_eq_true, if_false, ite_false] at hok
      obtain ⟨e2, h2⟩ := exceptMapM_error
        (fun rec => normaliseRow (lowerRow (fieldnames.getD []) rec)) records rec hrec e hfail
      rw [h2] at hok
      cases hok

unseal Rat.mul Rat.inv Rat.add Rat.sub in
/-- Witness for C7 at a concrete row with a thousands separator. -/
theorem value_parsing_witness :
    ∃ r, normaliseRow [("period", "p"), ("department", "d"), ("account", "a"),
      ("value", "1,200")] = .ok r ∧ r.value = 1200 :=
  (value_parsing _ "p" "d" "a" "1,200"
    (by decide) (by decide) (by decide) (by decide)).2.1 1200 (by decide)

/-! ### Workbook table-conflict lemmas -/

theorem processTables_conflict (wb : Workbook) (sheets : List String) :
    ∀ pre : List String,
      (∀ n ∈ pre, ∃ ws2 rs, wb.tableSheet n = some ws2 ∧ ws2.title ∈ sheets ∧
        rowsFromTable ws2 n = .ok rs) →
      ∀ (t : String) (post : List String) (ws : Sheet),
        wb.tableSheet t = some ws → ¬ ws.title ∈ sheets → sheets ≠ [] →
        processTables wb (some sheets) (pre ++ t :: post) =
          .error (.conflict t ws.title) := by
  intro pre
  induction pre with
  | nil =>
    intro _ t post ws hts hnm hne
    have htr : pyTruthyList (some sheets) = true := by
      rcases sheets with _ | _
      · exact absurd rfl hne
      · rfl
    have hc : sheets.contains ws.title = false := by simpa using hnm
    rw [List.nil_append]
    simp [processTables, hts, htr, hc]
    intro h
    exact absurd h hnm
  | cons n ptail ih =>
    intro hpre t post ws hts hnm hne
    obtain ⟨ws0, rs0, hws0, htitle, hrows⟩ := hpre n (List.mem_cons_self _ _)
    have hc0 : sheets.contains ws0.title = true := by simpa using htitle
    rw [List.cons_append]
    simp only [processTables, hws0, Option.getD_some, hc0, Bool.not_true,
      Bool.and_false, Bool.false_eq_true, if_false, ite_false]
    rw [hrows, ih (fun m hm => hpre m (List.mem_cons_of_mem _ hm)) t post ws hts hnm hne]
    rfl

/-- C9 (amended): when every name in the sheet filter names an existing
worksheet, every requested table exists, and the tables listed before the
first one whose sheet is excluded extract without error, `read_workbook`
fails with the ConflictError naming that table and its sheet.  (When the
sheet filter names a nonexistent worksheet, the worksheet-existence check
fires first and the call fails with a not-found error instead — see the
counterexample.) -/
theorem read_workbook_conflict (wb : Workbook) (sheets : List String)
    (pre : List String) (t : String) (post : List String) (ws : Sheet)
    (hne : sheets ≠ [])
    (hex : ∀ n ∈ sheets, n ∈ wb.sheetnames)
    (htab : ∀ n ∈ pre ++ t :: post, (wb.tableSheet n).isSome = true)
    (hpre : ∀ n ∈ pre, ∃ ws2 rs, wb.tableSheet n = some ws2 ∧ ws2.title ∈ sheets ∧
      rowsFromTable ws2 n = .ok rs)
    (hts : wb.tableSheet t = some ws) (hnm : ¬ ws.title ∈ sheets) :
    read_workbook wb (some sheets) (some (pre ++ t :: post)) =
      .error (.conflict t ws.title) := by
  have htr : pyTruthyList (some sheets) = true := by
    rcases sheets with _ | _
    · exact absurd rfl hne
    · rfl
  have htr2 : pyTruthyList (some (pre ++ t :: post)) = true := by
    rcases pre with _ | _ <;> rfl
  have hfind : sheets.find? (fun n => !wb.sheetnames.contains n) = none := by
    rw [List.find?_eq_none]
    intro n hn
    simp [hex n hn]
  have hfind2 : (pre ++ t :: post).find? (fun n => (wb.tableSheet n).isNone) = none := by
    rw [List.find?_eq_none]
    intro n hn
    have hsome := htab n hn
    rcases hx : wb.tableSheet n with _ | ws2
    · rw [hx] at hsome; cases hsome
    · simp
  simp only [read_workbook, Option.getD_some, htr, if_true, ite_true, hfind, htr2,
    hfind2]
  exact processTables_conflict wb sheets pre hpre t post ws hts hnm hne

/-- C9 counterexample: the spec's concrete table-resolution example over a
minimal workbook — table "T" spanning A1:E2 on sheet "S", sheet filter
["Other"] — fails with a worksheet-not-found error, not a ConflictError,
because the workbook has no sheet "Other" and the sheet-existence check runs
first. -/
theorem sheet_filter_not_found_preempts_conflict :
    read_workbook
      ⟨[⟨"S", [[some "period", some "department", some "account", some "value",
        some "x"]], [⟨"T", 1, 1, 5, 2⟩]⟩]⟩
      (some ["Other"]) (some ["T"]) = .error (.sheetNotFound "Other") := by decide

/-- Witness for C9's amended theorem: with sheet "Other" present, the same
request yields the ConflictError naming table "T". -/
theorem read_workbook_conflict_witness :
    read_workbook
      ⟨[⟨"S", [[some "period"]], [⟨"T", 1, 1, 5, 2⟩]⟩, ⟨"Other", [], []⟩]⟩
      (some ["Other"]) (some ["T"]) = .error (.conflict "T" "S") :=
  read_workbook_conflict
    ⟨[⟨"S", [[some "period"]], [⟨"T", 1, 1, 5, 2⟩]⟩, ⟨"Other", [], []⟩]⟩
    ["Other"] [] "T" [] ⟨"S", [[some "period"]], [⟨"T", 1, 1, 5, 2⟩]⟩
    (by decide) (by decide) (by decide)
    (fun n hn => absurd hn (List.not_mem_nil n))
    (by decide) (by decide)

unseal Rat.mul Rat.inv Rat.add Rat.sub in
/-- Witness for C3's pass-through clause: a row matched by no rule keeps its
value. -/
theorem apply_adjustments_compounding_witness :
    apply_adjustments [⟨"p", "d", "a", 5, "USD", ""⟩]
      [⟨some "X", none, 1/10⟩] = [⟨"p", "d", "a", 5, "USD", ""⟩] :=
  (apply_adjustments_compounding [⟨"p", "d", "a", 5, "USD", ""⟩]
    [⟨some "X", none, 1/10⟩]).2.1 ⟨"p", "d", "a", 5, "USD", ""⟩ (by decide)

end DROpen
